import Mathlib

/-!
# eigenlayer-price-avs operator: a shallow embedding

The Go operator reads a pool price, derives a drift-adjusted prediction,
commits a hash of `(prediction, salt)`, stores the round state on disk and
reveals.  This file embeds the pure and the state-passing parts of that
program and states what they do.

Conventions.
* `*big.Int` values are `Int`; a nil pointer is `none`.
* `int64` values are `Int` together with the range predicate `isInt64`;
  arithmetic performed on the machine type is wrapped with `wrapInt64`.
* bytes are `Nat` below `256`; byte slices are `List Nat`.
* a returned `error` or a run-time panic is the `fail` case of `Res`.
-/

namespace PriceAvs

/-! ## Failures -/

/-- How a Go call can fail: a returned `error` value or a run-time panic. -/
inductive Failure where
  | err (msg : String)
  | panic (msg : String)
  deriving DecidableEq, Repr

/-- Result of a fallible Go call. -/
inductive Res (α : Type) where
  | ok (v : α)
  | fail (f : Failure)
  deriving DecidableEq, Repr

/-! ## Machine integers -/

/-- Range of Go's `int64`. -/
def isInt64 (z : Int) : Prop := -2 ^ 63 ≤ z ∧ z < 2 ^ 63

instance (z : Int) : Decidable (isInt64 z) := by
  unfold isInt64; exact inferInstance

/-- Range of Solidity's `int56`, the element type of `tickCumulatives`. -/
def isInt56 (z : Int) : Prop := -2 ^ 55 ≤ z ∧ z < 2 ^ 55

instance (z : Int) : Decidable (isInt56 z) := by
  unfold isInt56; exact inferInstance

/-- Range of Solidity's `int256`. -/
def isInt256 (z : Int) : Prop := -2 ^ 255 ≤ z ∧ z < 2 ^ 255

instance (z : Int) : Decidable (isInt256 z) := by
  unfold isInt256; exact inferInstance

/-- Two's-complement reduction of an integer into the `int64` range: the value
an `int64` operation stores when its exact result is `z`. -/
def wrapInt64 (z : Int) : Int := (z + 2 ^ 63) % 2 ^ 64 - 2 ^ 63

/-! ## internal/predictor/predictor.go -/

/-- The line `PredictNext` writes to the log on its guard branch. -/
def invalidBaseMsg : String := "PredictNext: invalid base"

/-- `PredictNext` together with the lines it logs.  `baseX96` is a `*big.Int`
(`none` is nil); `driftBps` and `alphaBps` are `int64` values, converted to
`big.Int` by `big.NewInt` before any arithmetic, so the product and the sum
are exact.  `big.Int.Quo` is division truncated toward zero. -/
def PredictNextLogged (baseX96 : Option Int) (driftBps alphaBps : Int) :
    Int × List String :=
  match baseX96 with
  | none => (0, [invalidBaseMsg])
  | some base =>
    if base.sign ≤ 0 then (0, [invalidBaseMsg])
    else
      let scaleNum : Int := 10000 * 10000
      let adj : Int := 10000 * 10000
      let tmp : Int := alphaBps
      let tmp := tmp * driftBps
      let adj := adj + tmp
      let p := base * adj
      let p := Int.tdiv p scaleNum
      (p, [])

/-- Value returned by `PredictNext`. -/
def PredictNext (baseX96 : Option Int) (driftBps alphaBps : Int) : Int :=
  (PredictNextLogged baseX96 driftBps alphaBps).1

/-- `DriftBpsFromTicks`: `shortTick - longTick` on `int64`, which wraps. -/
def DriftBpsFromTicks (shortTick longTick : Int) : Int :=
  wrapInt64 (shortTick - longTick)


/-! ## Byte helpers (builtin `copy`, `math/big`, `encoding/hex`) -/

/-- Go's builtin `copy(dst, src)`: the contents of `dst` afterwards. -/
def copy (dst src : List Nat) : List Nat :=
  src.take dst.length ++ dst.drop src.length

/-- Big-endian digits base 256 of `v`, exactly `n` of them (the low `8 * n`
bits of `v`). -/
def beBytes : Nat → Nat → List Nat
  | 0, _ => []
  | n + 1, v => beBytes n (v / 256) ++ [v % 256]

/-- `big.Int.FillBytes(buf)`: clears `buf`, stores the ABSOLUTE VALUE of `x` in
it as a zero-extended big-endian byte slice, and panics when the absolute value
does not fit. -/
def FillBytes (x : Int) (buf : List Nat) : Res (List Nat) :=
  if x.natAbs < 256 ^ buf.length then .ok (beBytes buf.length x.natAbs)
  else .fail (.panic "math/big: buffer too small to fit value")

/-- `big.Int.Int64()`: the low 64 bits of the absolute value converted to
`int64`, negated (on `int64`) when `x` is negative. -/
def bigInt64 (x : Int) : Int :=
  let v := wrapInt64 ((x.natAbs % 2 ^ 64 : Nat) : Int)
  if x < 0 then wrapInt64 (-v) else v

/-- One lower-case hexadecimal digit. -/
def hexDigit (n : Nat) : Char := Nat.digitChar (n % 16)

/-- `hex.EncodeToString`. -/
def hexEncode : List Nat → List Char
  | [] => []
  | b :: bs => hexDigit (b / 16) :: hexDigit b :: hexEncode bs

/-- Value of a hexadecimal digit, as `encoding/hex` reads it. -/
def fromHexChar (c : Char) : Option Nat :=
  if 48 ≤ c.toNat ∧ c.toNat ≤ 57 then some (c.toNat - 48)
  else if 97 ≤ c.toNat ∧ c.toNat ≤ 102 then some (c.toNat - 97 + 10)
  else if 65 ≤ c.toNat ∧ c.toNat ≤ 70 then some (c.toNat - 65 + 10)
  else none

/-- Bytes returned by `hex.DecodeString`: the pairs decoded before the first
invalid digit or a dangling last digit (the error itself is discarded by the
only caller). -/
def hexDecode : List Char → List Nat
  | a :: b :: rest =>
    match fromHexChar a, fromHexChar b with
    | some p, some q => (p * 16 + q) :: hexDecode rest
    | _, _ => []
  | _ => []

/-! ## internal/avs/avs.go -/

/-- The 64-byte buffer `b` that `KeccakPackedInt256Bytes32` hands to Keccak:
`b := make([]byte, 32+32); x.FillBytes(b[:32]); copy(b[32:], salt[:])`. -/
def packedInt256Bytes32 (x : Int) (salt : List Nat) : Res (List Nat) :=
  let b := List.replicate (32 + 32) 0
  match FillBytes x (b.take 32) with
  | .fail f => .fail f
  | .ok hi => .ok (hi ++ copy (b.drop 32) salt)

/-- `common.BytesToHash`: keeps the last 32 bytes, left-pads with zeros. -/
def BytesToHash (b : List Nat) : List Nat :=
  let b := if b.length > 32 then b.drop (b.length - 32) else b
  let h := List.replicate 32 0
  h.take (32 - b.length) ++ copy (h.drop (32 - b.length)) b

/-- `KeccakPackedInt256Bytes32`, over the hash function `crypto.Keccak256`
(a library primitive, taken as a parameter). -/
def KeccakPackedInt256Bytes32 (keccak256 : List Nat → List Nat) (x : Int)
    (salt : List Nat) : Res (List Nat) :=
  match packedInt256Bytes32 x salt with
  | .fail f => .fail f
  | .ok b => .ok (BytesToHash (keccak256 b))

/-- `RandomSalt`, over the 32 bytes `rand.Read` delivers. -/
def RandomSalt (rnd : List Nat) : List Nat × List Char :=
  let s := copy (List.replicate 32 0) rnd
  (s, "0x".toList ++ hexEncode s)

/-- The encoding the comment in `KeccakPackedInt256Bytes32` and the contract
ask for: `x` as a 32-byte big-endian two's-complement word, the big-endian
bytes of `x mod 2^256`. -/
def twosComplementBE32 (x : Int) : List Nat :=
  beBytes 32 (x % 2 ^ 256).toNat

/-! ## internal/uniswap/pool.go -/

/-- The go-ethereum calls `Pool.TwapTick` makes, for the method `observe`:
`pack` is `abi.Pack("observe", args)` (the call data or the error),
`callContract` is `CallContract` (the returned bytes or the error), and
`unpackValues` is `Arguments.Unpack` on the two outputs of `observe`, which
yields the decoded values `tickCumulatives` and
`secondsPerLiquidityCumulativeX128`, each a `[]*big.Int`, or the error. -/
structure PoolBackend where
  pack : List Nat → Res (List Nat)
  callContract : List Nat → Res (List Nat)
  unpackValues : List Nat → Res (List (List Int))

/-- `abi.UnpackIntoInterface(&v, "observe", data)` for a slice `v`: the values
are decoded and then copied into `v` by `Arguments.Copy`.  `observe` has two
outputs, so the copy is `copyTuple`, which refuses a slice shorter than the
values and otherwise stores them in its first entries.  The result is the
contents of `v` afterwards. -/
def UnpackIntoInterface (unpackValues : List Nat → Res (List (List Int)))
    (v : List (List Int)) (data : List Nat) : Res (List (List Int)) :=
  match unpackValues data with
  | .fail f => .fail f
  | .ok values =>
    if values.length = 0 then
      .fail (.err "abi: attempting to copy no values while arguments are expected")
    else if v.length < values.length then
      .fail (.err ("abi: insufficient number of arguments for unpack, want 2, got "
        ++ String.mk (Nat.toDigits 10 v.length)))
    else .ok (values ++ v.drop values.length)

/-- Lines 80 to 85 of `Pool.TwapTick`: the average tick from the decoded
cumulative ticks.  `windowSec` is a `uint32`. -/
def twapFromTicks (ticks : List Int) (windowSec : Nat) : Res Int :=
  match ticks.get? 1 with
  | none => .fail (.panic "index out of range [1]")
  | some t1 =>
    match ticks.get? 0 with
    | none => .fail (.panic "index out of range [0]")
    | some t0 =>
      let delta := t1 - t0
      let w : Int := (windowSec : Int)
      if w = 0 then .fail (.panic "division by zero")
      else
        let avg := Int.tdiv delta w
        .ok (bigInt64 avg)

/-- `Pool.TwapTick`.  The destination of the unpacking is `var dec
[]interface{}`, a nil slice. -/
def TwapTick (p : PoolBackend) (windowSec : Nat) : Res Int :=
  let args := [windowSec, 0]
  match p.pack args with
  | .fail f => .fail f
  | .ok data =>
    match p.callContract data with
    | .fail f => .fail f
    | .ok out =>
      let dec : List (List Int) := []
      match UnpackIntoInterface p.unpackValues dec out with
      | .fail f => .fail f
      | .ok dec =>
        match dec.get? 0 with
        | none => .fail (.panic "index out of range [0]")
        | some ticks => twapFromTicks ticks windowSec

/-- A pool that answers `observe` with the cumulative ticks `-7000` and `5001`;
call data and returned bytes are stand-ins. -/
def demoPool : PoolBackend :=
  { pack := fun args => .ok args
    callContract := fun data => .ok data
    unpackValues := fun _ => .ok [[-7000, 5001], [0, 0]] }

/-! ## Text helpers (`math/big`, `strings`) -/

/-- `big.Int.Text(10)`; a nil receiver prints as `<nil>`. -/
def bigText : Option Int → List Char
  | none => "<nil>".toList
  | some x =>
    if x < 0 then '-' :: Nat.toDigits 10 x.natAbs else Nat.toDigits 10 x.natAbs

/-- Value of a decimal digit. -/
def decDigit (c : Char) : Option Nat :=
  if 48 ≤ c.toNat ∧ c.toNat ≤ 57 then some (c.toNat - 48) else none

/-- Reads a run of decimal digits, most significant first, onto `acc`. -/
def readDecimal : List Char → Nat → Option Nat
  | [], acc => some acc
  | c :: cs, acc =>
    match decDigit c with
    | none => none
    | some d => readDecimal cs (acc * 10 + d)

/-- `big.Int.SetString(s, 10)`: an optional sign, then one or more decimal
digits and nothing else.  `none` is the failure case, in which Go leaves the
receiver with an undefined value. -/
def SetString10 (s : List Char) : Option Int :=
  match s with
  | [] => none
  | c :: cs =>
    if c = '-' then
      (if cs = [] then none else (readDecimal cs 0).map (fun n => -(n : Int)))
    else if c = '+' then
      (if cs = [] then none else (readDecimal cs 0).map (fun n => (n : Int)))
    else (readDecimal (c :: cs) 0).map (fun n => (n : Int))

/-- `strings.TrimPrefix`. -/
def TrimPrefix (s pre : List Char) : List Char :=
  if pre.isPrefixOf s then s.drop pre.length else s

/-- `strings.TrimSuffix`. -/
def TrimSuffix (s suf : List Char) : List Char :=
  if suf.isSuffixOf s then s.take (s.length - suf.length) else s

/-! ## `fmt.Sscanf`, for the verbs the operator uses -/

/-- Errors of `fmt.Sscanf`. -/
inductive ScanErr where
  | eof
  | unexpectedEOF
  | noMatch
  | unexpectedNewline
  | tooFewOperands
  | tooManyOperands
  | missingVerb
  | unsupported
  deriving DecidableEq, Repr

/-- The text of a scan error. -/
def ScanErr.msg : ScanErr → String
  | .eof => "EOF"
  | .unexpectedEOF => "unexpected EOF"
  | .noMatch => "input does not match format"
  | .unexpectedNewline => "unexpected newline"
  | .tooFewOperands => "too few operands for format"
  | .tooManyOperands => "too many operands"
  | .missingVerb => "missing verb: % at end of format string"
  | .unsupported => "format outside the modelled fragment"

/-- `fmt`'s `isSpace`: the Unicode white-space code points. -/
def isSpace (c : Char) : Bool :=
  let n := c.toNat
  (9 ≤ n && n ≤ 13) || n = 32 || n = 133 || n = 160 || n = 5760 ||
  (8192 ≤ n && n ≤ 8202) || n = 8232 || n = 8233 || n = 8239 || n = 8287 ||
  n = 12288

/-- `fmt`'s `notSpace`. -/
def notSpace (c : Char) : Bool := !isSpace c

/-- `ss.SkipSpace` as `Sscanf` runs it (newlines are not spaces): the input
left, or the error. -/
def skipSpace : List Char → Except ScanErr (List Char)
  | [] => .ok []
  | r :: rest =>
    if r = '\r' ∧ rest.head? = some '\n' then skipSpace rest
    else if r = '\n' then .error .unexpectedNewline
    else if !isSpace r then .ok (r :: rest)
    else skipSpace rest

/-- One step of a scan format. -/
inductive FmtItem where
  | lit (c : Char)
  | verbS
  | missingVerb
  | unsupported
  deriving DecidableEq, Repr

/-- Splits a format into its steps.  Modelled: literal runes that are not
spaces and the verb `%s` without width; everything else is `unsupported`. -/
def parseFormat : List Char → List FmtItem
  | [] => []
  | c :: rest =>
    if c = '%' then
      match rest with
      | [] => [.missingVerb]
      | v :: rest2 => (if v = 's' then .verbS else .unsupported) :: parseFormat rest2
    else if isSpace c then .unsupported :: parseFormat rest
    else .lit c :: parseFormat rest

/-- `ss.doScanf` with `nargs` operands of type `*string`: the strings stored so
far and the error, if any.  A literal of the format must equal the next input
rune (`unexpected EOF` at the end of input); `%s` skips leading space, fails
with `EOF` when no input is left, and otherwise takes every rune up to the next
space or the end of input. -/
def doScanf : List FmtItem → List Char → Nat → List (List Char) →
    List (List Char) × Option ScanErr
  | [], _, nargs, acc =>
    (acc, if acc.length < nargs then some .tooManyOperands else none)
  | .lit c :: fmt, input, nargs, acc =>
    match input with
    | [] => (acc, some .unexpectedEOF)
    | r :: rest => if c = r then doScanf fmt rest nargs acc else (acc, some .noMatch)
  | .verbS :: fmt, input, nargs, acc =>
    match skipSpace input with
    | .error e => (acc, some e)
    | .ok input1 =>
      if nargs ≤ acc.length then (acc, some .tooFewOperands)
      else
        match input1 with
        | [] => (acc, some .eof)
        | _ :: _ =>
          doScanf fmt (input1.dropWhile notSpace) nargs
            (acc ++ [input1.takeWhile notSpace])
  | .missingVerb :: _, _, _, acc => (acc, some .missingVerb)
  | .unsupported :: _, _, _, acc => (acc, some .unsupported)

/-- `fmt.Sscanf(str, format, &a1, ..., &an)` with string operands. -/
def Sscanf (str format : List Char) (nargs : Nat) : List (List Char) × Option ScanErr :=
  doScanf (parseFormat format) str nargs []

/-! ## cmd/operator/main.go -/

/-- The files of the working directory: path and contents. -/
abbrev FS := List (String × List Char)

/-- `os.ReadFile`. -/
def readFile (fs : FS) (path : String) : Res (List Char) :=
  match fs.lookup path with
  | some b => .ok b
  | none => .fail (.err ("open " ++ path ++ ": no such file or directory"))

/-- The files after `path` has been created or truncated and holds `b`. -/
def writeFile (fs : FS) (path : String) (b : List Char) : FS :=
  (path, b) :: fs.filter (fun e => e.1 != path)

/-- How a call of `os.WriteFile(name, data, perm)` goes.  It opens the file with
`O_WRONLY|O_CREATE|O_TRUNC`, writes and closes: `done` is the call without
error; `openFails` is an error at the opening, which changes nothing;
`writeFails` is an error of `Write` or `Close` after the file was created or
truncated, with the number of bytes of `data` that reached the file. -/
inductive WriteAnswer where
  | done
  | openFails (err : String)
  | writeFails (err : String) (written : Nat)
  deriving DecidableEq, Repr

/-- What the operating system answers to the two calls of `saveState`: the
error of `os.MkdirAll("state", 0o755)`, if any, and the course of
`os.WriteFile`. -/
structure OsFaults where
  mkdirAll : Option String
  writeFile : WriteAnswer
  deriving DecidableEq, Repr

/-- `RoundState`. -/
structure RoundState where
  PredX96 : Option Int
  SaltHex : List Char
  deriving DecidableEq, Repr

/-- `filepath.Join("state", fmt.Sprintf("%s.json", round))`, for round names
that `filepath.Clean` leaves alone (decimal numerals, as `main` passes). -/
def statePath (round : String) : String := "state/" ++ round ++ ".json"

/-- The format shared by `saveState` and `loadSalt`. -/
def stateFormat : List Char := "\x7b\"pred\":\"%s\",\"salt\":\"%s\"\x7d".toList

/-- The bytes `saveState` formats with `fmt.Sprintf`. -/
def stateBytes (st : RoundState) : List Char :=
  "\x7b\"pred\":\"".toList ++ bigText st.PredX96 ++ "\",\"salt\":\"".toList ++
    st.SaltHex ++ "\"\x7d".toList

/-- `saveState`: both errors are assigned to the blank identifier and the
function has no result; all it leaves is the effect on the files. -/
def saveState (os : OsFaults) (fs : FS) (round : String) (st : RoundState) : FS :=
  let _mkdirErr := os.mkdirAll
  let f := statePath round
  let b := stateBytes st
  match os.writeFile with
  | .done => writeFile fs f b
  | .openFails _ => fs
  | .writeFails _ written => writeFile fs f (b.take written)

/-- `loadSalt`: the salt and the prediction (`none` when `SetString` failed and
left it undefined), or the error returned. -/
def loadSalt (fs : FS) (round : String) : Res (List Nat × Option Int) :=
  let f := statePath round
  match readFile fs f with
  | .fail e => .fail e
  | .ok b =>
    match Sscanf b stateFormat 2 with
    | (_, some e) => .fail (.err e.msg)
    | (vals, none) =>
      let predStr := vals.getD 0 []
      let saltHex := vals.getD 1 []
      let p := SetString10 ( TrimSuffix predStr "\",\"salt\":\"".toList)
      let saltBytes :=
        hexDecode ( TrimPrefix ( TrimSuffix saltHex "\"\x7d\"".toList) "0x".toList)
      let s := copy (List.replicate 32 0) saltBytes
      .ok (s, p)

/-- The collaborators of the commit and reveal steps of `main`. -/
structure Env where
  keccak256 : List Nat → List Nat
  privKey : Option String
  rnd : List Nat
  commit : Option Int → List Nat → Res String
  reveal : Option Int → Int → List Nat → Res String
  os : OsFaults

/-- How a run of `main` ends. -/
inductive Exit where
  | returned
  | fatal (msg : String)
  | panic (msg : String)
  deriving DecidableEq, Repr

/-- How `main` ends when a submission fails: `log.Fatal(tag, err)` on a returned
error, the panic itself on a panic. -/
def failExit (tag : String) : Failure → Exit
  | .err e => .fatal (tag ++ e)
  | .panic m => .panic m

/-- What a run of `main` leaves behind. -/
structure Run where
  fs : FS
  stdout : List String
  exit : Exit
  deriving DecidableEq, Repr

/-- The section of `main` from the prediction on (lines 111 to 136); the
configuration and the prices read in lines 67 to 109 are its arguments.
`env.privKey` is the error of `crypto.HexToECDSA`, if any; `env.commit` and
`env.reveal` stand for `BuildTransactor` followed by `avsCli.Commit` and
`avsCli.Reveal`, and answer with the transaction hash, the error of the
submission, or a panic. -/
def main (env : Env) (fs : FS) (roundID : Option Int) (priceX96Long : Option Int)
    (tickShort tickLong alphaBps : Int) : Run :=
  let drift := DriftBpsFromTicks tickShort tickLong
  let pred := PredictNext priceX96Long drift alphaBps
  match env.privKey with
  | some e => { fs := fs, stdout := [], exit := .fatal e }
  | none =>
    let (salt, saltHex) := RandomSalt env.rnd
    match KeccakPackedInt256Bytes32 env.keccak256 pred salt with
    | .fail (.panic m) => { fs := fs, stdout := [], exit := .panic m }
    | .fail (.err m) => { fs := fs, stdout := [], exit := .panic m }
    | .ok commit =>
      match env.commit roundID commit with
      | .fail f => { fs := fs, stdout := [], exit := failExit "commit:" f }
      | .ok tx1 =>
        let out1 := ["commit tx: " ++ tx1]
        let fs1 := saveState env.os fs (String.mk (bigText roundID))
          { PredX96 := some pred, SaltHex := saltHex }
        match env.reveal roundID pred salt with
        | .fail f => { fs := fs1, stdout := out1, exit := failExit "reveal:" f }
        | .ok tx2 =>
          { fs := fs1, stdout := out1 ++ ["reveal tx: " ++ tx2], exit := .returned }

/-- An environment in which the key parses and both submissions succeed, with
the given answers of the operating system.  The hash is a stand-in; no result
below depends on it. -/
def demoEnv (os : OsFaults) : Env :=
  { keccak256 := fun b => b.take 32
    privKey := none
    rnd := List.replicate 32 7
    commit := fun _ _ => .ok "0xc1"
    reveal := fun _ _ _ => .ok "0xe1"
    os := os }

/-- The environment `demoEnv` with a commit submission that is rejected. -/
def demoEnvCommitFails : Env :=
  { demoEnv { mkdirAll := none, writeFile := .done } with
    commit := fun _ _ => .fail (.err "nonce too low") }

/-! # Theorems -/

/-! ## Machine integers -/

theorem wrapInt64_of_isInt64 (z : Int) (h : isInt64 z) : wrapInt64 z = z := by
  unfold isInt64 at h
  unfold wrapInt64
  norm_num at h ⊢
  omega

theorem wrapInt64_isInt64 (z : Int) : isInt64 (wrapInt64 z) := by
  unfold isInt64 wrapInt64
  norm_num
  omega

theorem wrapInt64_congr (z : Int) : (2 : Int) ^ 64 ∣ wrapInt64 z - z := by
  unfold wrapInt64
  norm_num
  omega

/-! ## Predictor -/

theorem PredictNextLogged_valid (base d a : Int) (hb : 0 < base) :
    PredictNextLogged (some base) d a
      = (Int.tdiv (base * (100000000 + a * d)) 100000000, []) := by
  have hs : ¬ base.sign ≤ 0 := by
    rw [Int.sign_eq_one_of_pos hb]; decide
  simp [PredictNextLogged, hs]

theorem PredictNextLogged_invalid (base d a : Int) (hb : base ≤ 0) :
    PredictNextLogged (some base) d a = (0, [invalidBaseMsg]) := by
  have hs : base.sign ≤ 0 := by
    rcases hb.lt_or_eq with h | h
    · rw [Int.sign_eq_neg_one_of_neg h]; decide
    · subst h; decide
  simp [PredictNextLogged, hs]

/-- C3, as stated, fails: with `baseX96 = 1`, `driftBps = -10001` and
`alphaBps = 10000` the adjustment factor is `-10000`; `PredictNext` returns the
truncated quotient `0`, the floor is `-1`. -/
theorem PredictNext_floor_counterexample :
    (0 : Int) < 1 ∧ isInt64 (-10001) ∧ isInt64 10000 ∧
    PredictNext (some 1) (-10001) 10000 = 0 ∧
    Int.fdiv (1 * (100000000 + 10000 * (-10001))) 100000000 = -1 := by
  decide

/-- C3, amended: for every strictly positive `baseX96` and all `driftBps`,
`alphaBps` (in particular all `int64` ones), `PredictNext` returns
`baseX96 * (1e8 + alphaBps * driftBps)` divided by `1e8` with truncation
toward zero, the product and sum being exact; this is the floor whenever the
adjustment factor `1e8 + alphaBps * driftBps` is not negative. -/
theorem PredictNext_truncated_formula (base d a : Int) (hb : 0 < base) :
    PredictNext (some base) d a = Int.tdiv (base * (100000000 + a * d)) 100000000 ∧
    (0 ≤ 100000000 + a * d →
      PredictNext (some base) d a = Int.fdiv (base * (100000000 + a * d)) 100000000) := by
  have h := PredictNextLogged_valid base d a hb
  refine ⟨by simp [PredictNext, h], fun hadj => ?_⟩
  have hp : 0 ≤ base * (100000000 + a * d) := Int.mul_nonneg hb.le hadj
  simp only [PredictNext, h]
  rw [Int.tdiv_eq_ediv hp (by decide), Int.fdiv_eq_ediv _ (by decide)]

set_option maxRecDepth 100000 in
/-- The end-to-end scenario of the specification: base `2^96`, ticks 50 and
40, `alphaBps = 200`. -/
theorem PredictNext_truncated_formula_witness :
    (0 : Int) < 2 ^ 96 ∧ DriftBpsFromTicks 50 40 = 10 ∧
    (0 : Int) ≤ 100000000 + 200 * DriftBpsFromTicks 50 40 ∧
    PredictNext (some (2 ^ 96)) (DriftBpsFromTicks 50 40) 200
      = Int.fdiv (2 ^ 96 * (100000000 + 200 * DriftBpsFromTicks 50 40)) 100000000 :=
  ⟨by decide, by decide, by decide,
   (PredictNext_truncated_formula (2 ^ 96) (DriftBpsFromTicks 50 40) 200 (by decide)).2
     (by decide)⟩

set_option maxRecDepth 100000 in
/-- C4, as stated, fails: `PredictNext(2^96, 500, 10000)` multiplies the base
by `1e8 + 10000 * 500 = 105000000`, not by `100000500`. -/
theorem PredictNext_full_alpha_counterexample :
    (0 : Int) < 2 ^ 96 ∧ isInt64 500 ∧
    PredictNext (some (2 ^ 96)) 500 10000 = 83189570639977554473221147852 ∧
    (2 ^ 96 * 100000500 : Int) / 100000000 = 79228558655076908915231918055 ∧
    PredictNext (some (2 ^ 96)) 500 10000 ≠ (2 ^ 96 * (100000000 + 500) : Int) / 100000000 := by
  decide

/-- C4, amended: for every `baseX96 > 0` and every drift `d`,
`PredictNext(baseX96, d, 10000)` equals `baseX96 * (1e8 + 10000 * d) / 1e8`
with truncated division. -/
theorem PredictNext_full_alpha (base d : Int) (hb : 0 < base) :
    PredictNext (some base) d 10000
      = Int.tdiv (base * (100000000 + 10000 * d)) 100000000 := by
  simp [PredictNext, PredictNextLogged_valid base d 10000 hb]

set_option maxRecDepth 100000 in
theorem PredictNext_full_alpha_witness :
    (0 : Int) < 2 ^ 96 ∧
    PredictNext (some (2 ^ 96)) 500 10000
      = Int.tdiv (2 ^ 96 * (100000000 + 10000 * 500)) 100000000 ∧
    Int.tdiv (2 ^ 96 * (100000000 + 10000 * 500)) 100000000
      = (2 ^ 96 * 105000000 : Int) / 100000000 :=
  ⟨by decide, PredictNext_full_alpha (2 ^ 96) 500 (by decide), by decide⟩

/-- C5: for every strictly positive `baseX96` and every `alphaBps`,
`PredictNext(baseX96, 0, alphaBps) = baseX96`. -/
theorem PredictNext_zero_drift (base a : Int) (hb : 0 < base) :
    PredictNext (some base) 0 a = base := by
  simp only [PredictNext, PredictNextLogged_valid base 0 a hb, mul_zero, add_zero]
  exact Int.mul_tdiv_cancel base (by decide)

set_option maxRecDepth 100000 in
theorem PredictNext_zero_drift_witness :
    (0 : Int) < 2 ^ 96 ∧ PredictNext (some (2 ^ 96)) 0 200 = 2 ^ 96 :=
  ⟨by decide, PredictNext_zero_drift (2 ^ 96) 200 (by decide)⟩

/-- C6: when `baseX96` is nil, zero or negative, `PredictNext` logs the
invalid-base line and returns `0`; and it takes that branch (logs anything at
all) only when `baseX96` is nil or not positive. -/
theorem PredictNext_invalid_base (base : Option Int) (d a : Int) :
    ((base = none ∨ ∃ b, base = some b ∧ b ≤ 0) →
      PredictNextLogged base d a = (0, [invalidBaseMsg]) ∧ PredictNext base d a = 0) ∧
    ((PredictNextLogged base d a).2 ≠ [] → (base = none ∨ ∃ b, base = some b ∧ b ≤ 0)) := by
  constructor
  · rintro (rfl | ⟨b, rfl, hb⟩)
    · exact ⟨rfl, rfl⟩
    · simp [PredictNext, PredictNextLogged_invalid b d a hb]
  · intro hlog
    cases base with
    | none => exact Or.inl rfl
    | some b =>
      refine Or.inr ⟨b, rfl, ?_⟩
      by_contra hb
      exact hlog (by rw [PredictNextLogged_valid b d a (not_le.mp hb)])

theorem PredictNext_invalid_base_witness :
    PredictNext (some 0) 10 200 = 0 ∧ PredictNext (some (-1)) 10 200 = 0 ∧
    PredictNext none 10 200 = 0 :=
  ⟨((PredictNext_invalid_base (some 0) 10 200).1 (Or.inr ⟨0, rfl, by decide⟩)).2,
   ((PredictNext_invalid_base (some (-1)) 10 200).1 (Or.inr ⟨-1, rfl, by decide⟩)).2,
   ((PredictNext_invalid_base none 10 200).1 (Or.inl rfl)).2⟩

set_option maxRecDepth 100000 in
/-- C9, as stated, fails: `DriftBpsFromTicks(2^63 - 1, -1)` is an `int64`
subtraction that overflows and yields `-2^63`, not the integer `2^63`. -/
theorem DriftBpsFromTicks_overflow_counterexample :
    isInt64 (2 ^ 63 - 1) ∧ isInt64 (-1) ∧
    DriftBpsFromTicks (2 ^ 63 - 1) (-1) = -2 ^ 63 ∧
    DriftBpsFromTicks (2 ^ 63 - 1) (-1) ≠ (2 ^ 63 - 1) - (-1) := by
  decide

/-- C9, amended: `DriftBpsFromTicks(shortTick, longTick)` is an `int64` that
differs from the integer `shortTick - longTick` by a multiple of `2^64`, and it
is exactly `shortTick - longTick` whenever that difference is in the `int64`
range; `DriftBpsFromTicks(120, 100) = 20`, `DriftBpsFromTicks(100, 120) = -20`. -/
theorem DriftBpsFromTicks_wraps (s l : Int) :
    isInt64 (DriftBpsFromTicks s l) ∧
    (2 : Int) ^ 64 ∣ DriftBpsFromTicks s l - (s - l) ∧
    (isInt64 (s - l) → DriftBpsFromTicks s l = s - l) ∧
    DriftBpsFromTicks 120 100 = 20 ∧ DriftBpsFromTicks 100 120 = -20 :=
  ⟨wrapInt64_isInt64 _, wrapInt64_congr _, wrapInt64_of_isInt64 _, by decide, by decide⟩

theorem DriftBpsFromTicks_wraps_witness :
    isInt64 (50 - 40) ∧ DriftBpsFromTicks 50 40 = 50 - 40 :=
  ⟨by decide, (DriftBpsFromTicks_wraps 50 40).2.2.1 (by decide)⟩

/-! ## Commitment packing -/

theorem copy_eq_of_length_eq (dst src : List Nat) (h : src.length = dst.length) :
    copy dst src = src := by
  unfold copy
  rw [h, List.drop_length, ← h, List.take_length, List.append_nil]

/-- For predictions that are not negative the packing is the one the contract
recomputes: the two's-complement word followed by the salt. -/
theorem packedInt256Bytes32_nonneg (x : Int) (salt : List Nat) (h0 : 0 ≤ x)
    (hx : x < 2 ^ 255) (hs : salt.length = 32) :
    packedInt256Bytes32 x salt = .ok (twosComplementBE32 x ++ salt) := by
  have hmod : x % 2 ^ 256 = x := Int.emod_eq_of_lt h0 (by norm_num at hx ⊢; omega)
  have habs : (x.natAbs : Int) = x := Int.natAbs_of_nonneg h0
  have hlt : x.natAbs < 256 ^ 32 := by
    have : (x.natAbs : Int) < 256 ^ 32 := by rw [habs]; norm_num at hx ⊢; omega
    exact_mod_cast this
  have hnat : x.toNat = x.natAbs := by omega
  norm_num at hlt hmod
  simp [packedInt256Bytes32, FillBytes, twosComplementBE32, hmod, hlt, hnat]
  exact copy_eq_of_length_eq _ _ (by simp [hs])

set_option maxRecDepth 100000 in
/-- C2 fails on the code at `x = -1` with the all-zero salt: `FillBytes` stores
the absolute value, so the first 32 bytes hashed are `00..01`, while the
two's-complement encoding of `-1` is `ff..ff`. -/
theorem packedInt256Bytes32_negative_one :
    isInt256 (-1) ∧
    packedInt256Bytes32 (-1) (List.replicate 32 0)
      = .ok (List.replicate 31 0 ++ [1] ++ List.replicate 32 0) ∧
    twosComplementBE32 (-1) = List.replicate 32 255 ∧
    packedInt256Bytes32 (-1) (List.replicate 32 0)
      ≠ .ok (twosComplementBE32 (-1) ++ List.replicate 32 0) := by
  decide

set_option maxRecDepth 100000 in
/-- C7 fails on the code: the predictions `1` and `-1` are packed to the same
64 bytes with every salt, so their commitments are equal for every hash
function. -/
theorem packedInt256Bytes32_sign_collision (keccak256 : List Nat → List Nat)
    (salt : List Nat) :
    isInt256 1 ∧ isInt256 (-1) ∧ (1 : Int) ≠ -1 ∧
    packedInt256Bytes32 1 salt = packedInt256Bytes32 (-1) salt ∧
    KeccakPackedInt256Bytes32 keccak256 1 salt
      = KeccakPackedInt256Bytes32 keccak256 (-1) salt := by
  refine ⟨by decide, by decide, by decide, ?_, ?_⟩ <;>
    simp [KeccakPackedInt256Bytes32, packedInt256Bytes32, FillBytes]

/-! ## TWAP tick -/

theorem bigInt64_of_isInt64 (x : Int) (h : isInt64 x) : bigInt64 x = x := by
  obtain ⟨h1, h2⟩ := h
  have e63 : (2 : Int) ^ 63 = 9223372036854775808 := by norm_num
  have e64 : (2 : Int) ^ 64 = 18446744073709551616 := by norm_num
  have n64 : (2 : Nat) ^ 64 = 18446744073709551616 := by norm_num
  unfold bigInt64 wrapInt64
  simp only [e63, e64, n64] at h1 h2 ⊢
  have hx := Int.natAbs_eq x
  generalize x.natAbs = n at hx ⊢
  rcases hx with hx | hx <;> split_ifs <;> omega

theorem tdiv_isInt64 (d : Int) (w : Nat) (hw : 0 < w) (hd : -2 ^ 56 < d ∧ d < 2 ^ 56) :
    isInt64 (Int.tdiv d w) := by
  have hwz : (0 : Int) < w := by exact_mod_cast hw
  have hle : (Int.tdiv d w).natAbs ≤ d.natAbs := by
    rw [Int.natAbs_tdiv]
    exact Nat.div_le_self _ _
  unfold isInt64
  norm_num at hd ⊢
  rcases Int.natAbs_eq d with h1 | h1 <;>
    rcases Int.natAbs_eq (Int.tdiv d w) with h2 | h2 <;> omega

/-- What lines 80 to 85 of `TwapTick` compute from decoded cumulative ticks:
for a window `windowSec > 0` and `int56` values `t0` (at `windowSec` ago) and
`t1` (now) the quotient `(t1 - t0) / windowSec` truncated toward zero, which is
an `int64`. -/
theorem twapFromTicks_quotient (windowSec : Nat) (t0 t1 : Int) (rest : List Int)
    (hw : 0 < windowSec) (h0 : isInt56 t0) (h1 : isInt56 t1) :
    twapFromTicks (t0 :: t1 :: rest) windowSec = .ok (Int.tdiv (t1 - t0) windowSec) ∧
    isInt64 (Int.tdiv (t1 - t0) windowSec) := by
  have hfit : isInt64 (Int.tdiv (t1 - t0) windowSec) := by
    apply tdiv_isInt64 _ _ hw
    unfold isInt56 at h0 h1
    norm_num at h0 h1 ⊢
    omega
  have hwz : ¬ ((windowSec : Int) = 0) := by
    have : (0 : Int) < windowSec := by exact_mod_cast hw
    omega
  refine ⟨?_, hfit⟩
  simp [twapFromTicks, hwz, bigInt64_of_isInt64 _ hfit]

theorem UnpackIntoInterface_nil (unpackValues : List Nat → Res (List (List Int)))
    (data : List Nat) (r : List (List Int)) :
    UnpackIntoInterface unpackValues [] data ≠ .ok r := by
  unfold UnpackIntoInterface
  cases unpackValues data with
  | fail f => simp
  | ok values =>
    cases values with
    | nil => simp
    | cons a l => simp

set_option maxRecDepth 100000 in
/-- C8 fails on the code: `TwapTick` hands the nil slice `dec` to
`UnpackIntoInterface`, which refuses it for the two outputs of `observe`, so
`TwapTick` returns no tick for any window and any answer of the pool.  With
`windowSec = 300` and the cumulative ticks `-7000` and `5001` it returns the
error of the unpacking, where the quotient of the claim is `40`. -/
theorem TwapTick_never_ok (p : PoolBackend) (windowSec : Nat) :
    (∀ r, TwapTick p windowSec ≠ .ok r) ∧
    demoPool.unpackValues [300, 0] = .ok [[-7000, 5001], [0, 0]] ∧
    TwapTick demoPool 300
      = .fail (.err "abi: insufficient number of arguments for unpack, want 2, got 0") ∧
    twapFromTicks [-7000, 5001] 300 = .ok 40 := by
  refine ⟨?_, by decide, by decide, by decide⟩
  intro r
  unfold TwapTick
  cases hp : p.pack [windowSec, 0] with
  | fail f => simp [hp]
  | ok data =>
    cases hc : p.callContract data with
    | fail f => simp [hp, hc]
    | ok out =>
      cases hu : UnpackIntoInterface p.unpackValues [] out with
      | fail f => simp [hp, hc, hu]
      | ok dec => exact absurd hu (UnpackIntoInterface_nil _ _ _)

/-! ## Round state store -/

theorem readFile_writeFile (fs : FS) (path : String) (b : List Char) :
    readFile (writeFile fs path b) path = .ok b := by
  simp [readFile, writeFile, List.lookup]

theorem notSpace_digitChar_lt : ∀ n < 16, notSpace (Nat.digitChar n) = true := by
  decide

theorem notSpace_digitChar_mod10 (n : Nat) : notSpace (Nat.digitChar (n % 10)) = true :=
  notSpace_digitChar_lt _ (by omega)

theorem notSpace_hexDigit (n : Nat) : notSpace (hexDigit n) = true :=
  notSpace_digitChar_lt _ (by omega)

theorem notSpace_toDigitsCore (fuel n : Nat) (acc : List Char)
    (hacc : ∀ c ∈ acc, notSpace c = true) :
    ∀ c ∈ Nat.toDigitsCore 10 fuel n acc, notSpace c = true := by
  induction fuel generalizing n acc with
  | zero => simpa [Nat.toDigitsCore] using hacc
  | succ k ih =>
    unfold Nat.toDigitsCore
    have hcons : ∀ c ∈ Nat.digitChar (n % 10) :: acc, notSpace c = true := by
      intro c hc
      rcases List.mem_cons.mp hc with rfl | hc
      · exact notSpace_digitChar_mod10 _
      · exact hacc c hc
    dsimp only
    split_ifs
    · exact hcons
    · exact ih _ _ hcons

theorem notSpace_bigText (x : Option Int) : ∀ c ∈ bigText x, notSpace c = true := by
  have hd : ∀ n, ∀ c ∈ Nat.toDigits 10 n, notSpace c = true := fun n =>
    notSpace_toDigitsCore _ _ [] (by simp)
  cases x with
  | none => simp only [bigText]; decide
  | some z =>
    simp only [bigText]
    split_ifs
    · intro c hc
      rcases List.mem_cons.mp hc with rfl | hc
      · decide
      · exact hd _ c hc
    · exact hd _

theorem notSpace_hexEncode (bs : List Nat) : ∀ c ∈ hexEncode bs, notSpace c = true := by
  induction bs with
  | nil => simp [hexEncode]
  | cons b bs ih =>
    intro c hc
    simp only [hexEncode, List.mem_cons] at hc
    rcases hc with rfl | rfl | hc
    · exact notSpace_hexDigit _
    · exact notSpace_hexDigit _
    · exact ih c hc

theorem skipSpace_of_notSpace (r : Char) (rest : List Char) (h : notSpace r = true) :
    skipSpace (r :: rest) = .ok (r :: rest) := by
  have hs : isSpace r = false := by simpa [notSpace] using h
  have h1 : r ≠ '\r' := by rintro rfl; revert hs; decide
  have h2 : r ≠ '\n' := by rintro rfl; revert hs; decide
  simp [skipSpace, h1, h2, hs]

theorem takeWhile_all (p : Char → Bool) (l : List Char) (h : ∀ c ∈ l, p c = true) :
    l.takeWhile p = l ∧ l.dropWhile p = [] := by
  induction l with
  | nil => simp
  | cons a l ih =>
    have ha := h a (List.mem_cons_self _ _)
    have := ih (fun c hc => h c (List.mem_cons_of_mem _ hc))
    simp [List.takeWhile, List.dropWhile, ha, this]

/-- A `%s` followed by a literal stops at the end of an input without spaces:
the verb takes all of it and the literal meets the end of input. -/
theorem doScanf_verbS_greedy (c : Char) (fmt : List FmtItem) (input : List Char)
    (nargs : Nat) (acc : List (List Char)) (hne : input ≠ [])
    (hall : ∀ r ∈ input, notSpace r = true) (hargs : acc.length < nargs) :
    doScanf (.verbS :: .lit c :: fmt) input nargs acc
      = (acc ++ [input], some .unexpectedEOF) := by
  cases input with
  | nil => exact absurd rfl hne
  | cons r rest =>
    have hskip := skipSpace_of_notSpace r rest (hall r (List.mem_cons_self _ _))
    obtain ⟨ht, hd⟩ := takeWhile_all notSpace (r :: rest) hall
    have hn : ¬ nargs ≤ acc.length := by omega
    simp only [doScanf, hskip, hn, if_false, ht, hd]

theorem parseFormat_stateFormat :
    parseFormat stateFormat
      = [.lit '\x7b', .lit '"', .lit 'p', .lit 'r', .lit 'e', .lit 'd', .lit '"',
         .lit ':', .lit '"', .verbS,
         .lit '"', .lit ',', .lit '"', .lit 's', .lit 'a', .lit 'l', .lit 't', .lit '"',
         .lit ':', .lit '"', .verbS, .lit '"', .lit '\x7d'] := by
  decide

theorem doScanf_lit_cons (c : Char) (fmt : List FmtItem) (rest : List Char) (nargs : Nat)
    (acc : List (List Char)) :
    doScanf (.lit c :: fmt) (c :: rest) nargs acc = doScanf fmt rest nargs acc := by
  simp [doScanf]

theorem stateBytes_eq (st : RoundState) :
    stateBytes st
      = '\x7b' :: '"' :: 'p' :: 'r' :: 'e' :: 'd' :: '"' :: ':' :: '"' ::
          (bigText st.PredX96 ++ "\",\"salt\":\"".toList ++ st.SaltHex ++ "\"\x7d".toList) := by
  simp [stateBytes]

/-- Scanning what `saveState` formats: the first `%s` takes everything after
the opening literal, and the literal that follows it meets the end of input. -/
theorem Sscanf_stateBytes (st : RoundState) (hs : ∀ c ∈ st.SaltHex, notSpace c = true) :
    Sscanf (stateBytes st) stateFormat 2
      = ([bigText st.PredX96 ++ "\",\"salt\":\"".toList ++ st.SaltHex ++ "\"\x7d".toList],
         some .unexpectedEOF) := by
  have hall : ∀ r ∈ bigText st.PredX96 ++ "\",\"salt\":\"".toList ++ st.SaltHex
      ++ "\"\x7d".toList, notSpace r = true := by
    intro r hr
    simp only [List.mem_append] at hr
    have hmid : ∀ c ∈ "\",\"salt\":\"".toList, notSpace c = true := by decide
    have hend : ∀ c ∈ "\"\x7d".toList, notSpace c = true := by decide
    rcases hr with ((hr | hr) | hr) | hr
    · exact notSpace_bigText _ r hr
    · exact hmid r hr
    · exact hs r hr
    · exact hend r hr
  have hne : bigText st.PredX96 ++ "\",\"salt\":\"".toList ++ st.SaltHex
      ++ "\"\x7d".toList ≠ [] := by simp
  unfold Sscanf
  rw [parseFormat_stateFormat, stateBytes_eq]
  simp only [doScanf_lit_cons]
  exact doScanf_verbS_greedy _ _ _ 2 [] hne hall (by decide)

theorem loadSalt_stateBytes (fs : FS) (round : String) (st : RoundState)
    (hs : ∀ c ∈ st.SaltHex, notSpace c = true) :
    loadSalt (writeFile fs (statePath round) (stateBytes st)) round
      = .fail (.err "unexpected EOF") := by
  simp only [loadSalt, readFile_writeFile, Sscanf_stateBytes st hs]
  rfl

/-- C1 fails on the code for every round, prediction and salt: after
`saveState` has written the state file, `loadSalt` on it returns the error
`unexpected EOF` of `fmt.Sscanf`, not the pair that was saved. -/
theorem loadSalt_saveState_fails (fs : FS) (round : String) (p : Int) (salt : List Nat)
    (mkdirErr : Option String) :
    loadSalt
        (saveState { mkdirAll := mkdirErr, writeFile := .done } fs round
          { PredX96 := some p, SaltHex := "0x".toList ++ hexEncode salt })
        round
      = .fail (.err "unexpected EOF") := by
  have hs : ∀ c ∈ "0x".toList ++ hexEncode salt, notSpace c = true := by
    have h0x : ∀ c ∈ "0x".toList, notSpace c = true := by decide
    intro c hc
    rcases List.mem_append.mp hc with hc | hc
    · exact h0x c hc
    · exact notSpace_hexEncode _ c hc
  simpa [saveState] using loadSalt_stateBytes fs round
    { PredX96 := some p, SaltHex := "0x".toList ++ hexEncode salt } hs

theorem dropWhile_head_false (p : Char → Bool) (l : List Char) (r : Char)
    (rest : List Char) (h : l.dropWhile p = r :: rest) : p r = false := by
  induction l with
  | nil => simp at h
  | cons a l ih =>
    by_cases ha : p a = true
    · rw [List.dropWhile_cons_of_pos ha] at h
      exact ih h
    · rw [List.dropWhile_cons_of_neg ha] at h
      injection h with h1 _
      subst h1
      simpa using ha

theorem doScanf_lit_fails (c : Char) (fmt : List FmtItem)
    (h : ∀ input nargs acc, (doScanf fmt input nargs acc).2 ≠ none) :
    ∀ input nargs acc, (doScanf (.lit c :: fmt) input nargs acc).2 ≠ none := by
  intro input nargs acc
  cases input with
  | nil => simp [doScanf]
  | cons r rest =>
    by_cases hc : c = r
    · subst hc
      rw [doScanf_lit_cons]
      exact h _ _ _
    · simp [doScanf, hc]

/-- A `%s` followed by a literal that is not a space never scans: the verb
stops only at a space or at the end of input, and neither is the literal. -/
theorem doScanf_verbS_lit_fails (c : Char) (fmt : List FmtItem) (hc : notSpace c = true) :
    ∀ input nargs acc, (doScanf (.verbS :: .lit c :: fmt) input nargs acc).2 ≠ none := by
  intro input nargs acc
  unfold doScanf
  cases hskip : skipSpace input with
  | error e => simp
  | ok input1 =>
    by_cases hn : nargs ≤ acc.length
    · simp [hn]
    · cases input1 with
      | nil => simp [hn]
      | cons a l =>
        simp only [hn, if_false]
        cases hd : List.dropWhile notSpace (a :: l) with
        | nil => simp [doScanf]
        | cons r rest =>
          have hr := dropWhile_head_false notSpace _ r rest hd
          have hne : c ≠ r := by
            rintro rfl
            rw [hc] at hr
            exact absurd hr (by decide)
          simp [doScanf, hne]

/-- The format of `loadSalt` scans no input at all. -/
theorem Sscanf_stateFormat_fails (b : List Char) : (Sscanf b stateFormat 2).2 ≠ none := by
  unfold Sscanf
  rw [parseFormat_stateFormat]
  iterate 9 apply doScanf_lit_fails
  exact doScanf_verbS_lit_fails _ _ (by decide)

/-- Whatever the state file holds, `loadSalt` does not return a state. -/
theorem loadSalt_never_ok (fs : FS) (round : String) (r : List Nat × Option Int) :
    loadSalt fs round ≠ .ok r := by
  unfold loadSalt
  cases hread : readFile fs (statePath round) with
  | fail e => simp [hread]
  | ok b =>
    have h := Sscanf_stateFormat_fails b
    cases hscan : Sscanf b stateFormat 2 with
    | mk vals err =>
      rw [hscan] at h
      cases err with
      | none => exact absurd rfl h
      | some e => simp [hread, hscan]

/-! ## Commit path of `main` -/

set_option maxRecDepth 100000 in
/-- C10, as stated, fails: with a commit that succeeds and an operating system
that refuses both `MkdirAll` and the opening of the state file, the run ends
normally with the output of a run that persisted its state, and no state file
exists; the same when the write breaks off after five bytes. -/
theorem main_swallows_persistence_failure :
    main (demoEnv { mkdirAll := some "mkdir state: permission denied",
                    writeFile := .openFails "open state/1.json: permission denied" })
        [] (some 1) (some (2 ^ 96)) 50 40 200
      = { fs := [], stdout := ["commit tx: 0xc1", "reveal tx: 0xe1"], exit := .returned } ∧
    (main (demoEnv { mkdirAll := none, writeFile := .done })
        [] (some 1) (some (2 ^ 96)) 50 40 200).stdout
      = ["commit tx: 0xc1", "reveal tx: 0xe1"] ∧
    (main (demoEnv { mkdirAll := none, writeFile := .done })
        [] (some 1) (some (2 ^ 96)) 50 40 200).exit = .returned ∧
    ((main (demoEnv { mkdirAll := none, writeFile := .done })
        [] (some 1) (some (2 ^ 96)) 50 40 200).fs.lookup "state/1.json").isSome = true ∧
    main (demoEnv { mkdirAll := none,
                    writeFile := .writeFails "write state/1.json: no space left on device" 5 })
        [] (some 1) (some (2 ^ 96)) 50 40 200
      = { fs := [("state/1.json", "\x7b\"pre".toList)],
          stdout := ["commit tx: 0xc1", "reveal tx: 0xe1"], exit := .returned } := by
  decide

/-- C10, amended: in the commit path of `main`, whenever the commit submission
fails the run ends there (`log.Fatal` on a returned error) and the files are
left as they were; and whenever it succeeds, `saveState` discards the errors of
`MkdirAll` and `WriteFile` (it has no result), so the way the run ends and what
it prints are the same for every answer of the operating system. -/
theorem main_commit_persistence (env : Env) (os2 : OsFaults) (fs : FS)
    (roundID priceX96Long : Option Int) (tickShort tickLong alphaBps : Int) :
    (∀ f, env.privKey = none →
      (∃ c, KeccakPackedInt256Bytes32 env.keccak256
              (PredictNext priceX96Long (DriftBpsFromTicks tickShort tickLong) alphaBps)
              (RandomSalt env.rnd).1 = .ok c ∧
            env.commit roundID c = .fail f) →
      main env fs roundID priceX96Long tickShort tickLong alphaBps
        = { fs := fs, stdout := [], exit := failExit "commit:" f }) ∧
    (main { env with os := os2 } fs roundID priceX96Long tickShort tickLong alphaBps).exit
      = (main env fs roundID priceX96Long tickShort tickLong alphaBps).exit ∧
    (main { env with os := os2 } fs roundID priceX96Long tickShort tickLong alphaBps).stdout
      = (main env fs roundID priceX96Long tickShort tickLong alphaBps).stdout := by
  refine ⟨?_, ?_, ?_⟩
  · rintro f hk ⟨c, hc, he⟩
    simp only [RandomSalt] at hc
    simp only [main, hk, RandomSalt, hc, he]
  · unfold main
    cases env.privKey <;> simp only []
    split <;> try rfl
    split <;> try rfl
    split <;> rfl
  · unfold main
    cases env.privKey <;> simp only []
    split <;> try rfl
    split <;> try rfl
    split <;> rfl

set_option maxRecDepth 100000 in
theorem main_commit_persistence_witness :
    main demoEnvCommitFails [("state/0.json", [])] (some 1) (some (2 ^ 96)) 50 40 200
      = { fs := [("state/0.json", [])], stdout := [],
          exit := .fatal ("commit:" ++ "nonce too low") } :=
  (main_commit_persistence demoEnvCommitFails { mkdirAll := none, writeFile := .done }
    [("state/0.json", [])] (some 1) (some (2 ^ 96)) 50 40 200).1
    (.err "nonce too low") rfl ⟨_, rfl, rfl⟩

end PriceAvs
